import Mathlib

/-!
Verification development for the discretized-stream core implemented in
src/python/pyspark/streaming/dstream.py.

A per-batch keyed Dataset (an RDD of key-value pairs restricted to a single
partition, which is all the keyed combinators observe) is embedded as an
association list `List (K × V)`.  `reduceByKey` is embedded as the fold that
`rdd.combineByKey(lambda x: x, func, func, n)` performs on one partition:
the first value of a key is its combiner, later values are merged with
`func` in arrival order.  The JVM-side drivers that are not part of the
analysed source (window slicing, the incremental reduced-window loop) are
modelled from the spec and are marked as such in their doc comments.
-/

namespace Spark

/-- Lookup of the value of key `k` in an association list (the first
occurrence wins, as for keyed datasets with distinct keys). -/
def alookup [DecidableEq K] : List (K × V) → K → Option V
  | [], _ => none
  | kv :: rest, k => if kv.1 = k then some kv.2 else alookup rest k

/-- Merge one `(k, v)` pair into an accumulator whose entry for `k` (if any)
is combined with `func`; otherwise the pair is appended.  This is the
per-element step of `combineByKey(lambda x: x, func, func, n)` from
`DStream.reduceByKey` (dstream.py lines 176-204). -/
def upsert [DecidableEq K] (func : V → V → V) : List (K × V) → K → V → List (K × V)
  | [], k, v => [(k, v)]
  | kv :: rest, k, v =>
    if kv.1 = k then (kv.1, func kv.2 v) :: rest else kv :: upsert func rest k v

/-- `DStream.reduceByKey(func)` (dstream.py lines 176-186) on one batch:
fold every pair into the accumulator, combining values of equal keys with
`func` in arrival order. -/
def reduceByKey [DecidableEq K] (func : V → V → V) (l : List (K × V)) : List (K × V) :=
  l.foldl (fun acc kv => upsert func acc kv.1 kv.2) []

/-- The values carried by key `k` in a batch, in arrival order. -/
def keyVals [DecidableEq K] (l : List (K × V)) (k : K) : List V :=
  (l.filter (fun kv => decide (kv.1 = k))).map Prod.snd

/-- Combine an optional accumulated value with one more value. -/
def opStep (func : V → V → V) : Option V → V → Option V
  | none, v => some v
  | some w, v => some (func w v)

/-- Reduce a list of values of one key with `func`, in order; `none` when
the key never occurred. -/
def foldV (func : V → V → V) (l : List V) : Option V :=
  l.foldl (opStep func) none

/-- Merge two optional reduced values with `func` (the per-key effect of
`a.union(b).reduceByKey(func)` on inputs whose keys are already distinct). -/
def opComb (func : V → V → V) : Option V → Option V → Option V
  | none, b => b
  | some v, none => some v
  | some v, some w => some (func v w)

/-- The keys of an association list are pairwise distinct. -/
def keysND [DecidableEq K] (l : List (K × V)) : Prop :=
  (l.map Prod.fst).Nodup

/-!
Window index sets

Time is measured in units of the parent stream slide duration.  `batches u`
is the parent batch produced at base tick `u` (ticks start at `u = 1`; no
batch exists at or before tick `0`).  The windowed stream has window length
`w` and slide `s`, both in base-tick units (the validated form of claim C5
guarantees windowDuration and slideDuration are exact multiples of the base
slide, which is what these units express).  Output tick `i` is the window
ending at base time `i * s`.
-/

/-- Modelled from the spec: the set of base ticks inside the window ending
at output tick `i`, namely the half-open interval `(i*s - w, i*s]`
intersected with the existing ticks `1, 2, ...` (spec section 4.2:
"the union of all parent-node outputs for times in (t - windowDuration, t]
at the parent's native tick granularity").  The JVM-side window slicing is
not part of the analysed Python source. -/
def winIdx (w s i : Nat) : List Nat :=
  (List.range (i * s + 1)).filter (fun u => decide (1 ≤ u) && decide (i * s < u + w))

/-- Modelled from the spec: the base ticks entering the window between
output tick `i` and output tick `i + 1` (present in the new window, absent
from the old one). -/
def enterIdx (w s i : Nat) : List Nat :=
  (winIdx w s (i + 1)).filter (fun u => ! decide (u ∈ winIdx w s i))

/-- Modelled from the spec: the base ticks leaving the window between
output tick `i` and output tick `i + 1` (present in the old window, absent
from the new one). -/
def leaveIdx (w s i : Nat) : List Nat :=
  (winIdx w s i).filter (fun u => ! decide (u ∈ winIdx w s (i + 1)))

/-- The per-key reduced value of the batch at base tick `u`. -/
def bVal [DecidableEq K] (func : V → V → V) (batches : Nat → List (K × V))
    (k : K) (u : Nat) : Option V :=
  foldV func (keyVals (batches u) k)

/-- The per-key reduced value of a collection of base ticks, combined in
list order. -/
def winVal [DecidableEq K] (func : V → V → V) (batches : Nat → List (K × V))
    (k : K) (idxs : List Nat) : Option V :=
  idxs.foldl (fun a u => opComb func a (bVal func batches k u)) none

/-- Base ticks common to the windows at output ticks `i` and `i + 1`. -/
def interIdx (w s i : Nat) : List Nat :=
  (winIdx w s (i + 1)).filter (fun u => decide (u ∈ winIdx w s i))

/-- The naive path of `DStream.reduceByKeyAndWindow` with `invFunc = None`
(dstream.py lines 788 and 819-822): per-batch `reduceByKey(func)`, window
the reduced batches (their union over the window indices), and reduce the
unioned window by key again. -/
def naivePath [DecidableEq K] (func : V → V → V) (batches : Nat → List (K × V))
    (w s i : Nat) : List (K × V) :=
  reduceByKey func
    (List.flatten ((winIdx w s i).map (fun u => reduceByKey func (batches u))))

/-!
The incremental path of reduceByKeyAndWindow
-/

/-- The `reduceFunc` closure of `DStream.reduceByKeyAndWindow` (dstream.py
lines 792-797): reduce the new batches `b` by key, union with the previous
window value `a` when it exists and reduce by key again, then apply
`filterFunc` when supplied.  `a` is `None` on the first window. -/
def rbkwReduceFunc [DecidableEq K] (func : V → V → V)
    (filterFunc : Option ((K × V) → Bool))
    (a : Option (List (K × V))) (b : List (K × V)) : List (K × V) :=
  let b2 := reduceByKey func b
  let r := match a with
    | some al => reduceByKey func (al ++ b2)
    | none => b2
  match filterFunc with
  | some p => r.filter p
  | none => r

/-- The `invReduceFunc` closure of `DStream.reduceByKeyAndWindow`
(dstream.py lines 799-804): reduce the leaving batches `b` by key,
left-outer-join the current window value `a` with the result (embedded for
the key-distinct right side as a lookup), and replace a joined value by
`invFunc(oldValue, leavingValue)` when the leaving side is present, keeping
`oldValue` otherwise. -/
def rbkwInvReduceFunc [DecidableEq K] (func invFunc : V → V → V)
    (a b : List (K × V)) : List (K × V) :=
  let b2 := reduceByKey func b
  let joined := a.map (fun kv => (kv.1, (kv.2, alookup b2 kv.1)))
  joined.map (fun kv =>
    (kv.1, match kv.2.2 with
      | some w => invFunc kv.2.1 w
      | none => kv.2.1))

/-- The union of the per-batch reduced entering batches handed to
`reduceFunc` at output tick `i + 1` (the parent of the reduced-window
stream is `reduced = self.reduceByKey(func)`, dstream.py line 788, so the
driver sees per-batch reduced data). -/
def redEnter [DecidableEq K] (func : V → V → V) (batches : Nat → List (K × V))
    (w s i : Nat) : List (K × V) :=
  List.flatten ((enterIdx w s i).map (fun u => reduceByKey func (batches u)))

/-- The union of the per-batch reduced leaving batches handed to
`invReduceFunc` at output tick `i + 1`. -/
def redLeave [DecidableEq K] (func : V → V → V) (batches : Nat → List (K × V))
    (w s i : Nat) : List (K × V) :=
  List.flatten ((leaveIdx w s i).map (fun u => reduceByKey func (batches u)))

/-- Modelled from the spec: the per-tick driver of the incremental path
(`PythonReducedWindowedDStream`, JVM side, not under src/).  Spec section
4.2, incremental path: at each output tick, reduce the entering batches and
merge them into the previous window value with `reduceFunc` (steps 1-3),
then inverse-reduce the leaving batches with `invReduceFunc` (step 4), and
emit the result as the new previous value (step 5).  Before the first
output tick there is no previous window value (`none`). -/
def incrRun [DecidableEq K] (func invFunc : V → V → V)
    (filterFunc : Option ((K × V) → Bool)) (batches : Nat → List (K × V))
    (w s : Nat) : Nat → Option (List (K × V))
  | 0 => none
  | i + 1 =>
    some (rbkwInvReduceFunc func invFunc
      (rbkwReduceFunc func filterFunc (incrRun func invFunc filterFunc batches w s i)
        (redEnter func batches w s i))
      (redLeave func batches w s i))

/-- Substitute the inverse-reduced value for one key: apply
`invFunc(oldValue, leavingValue)` when a leaving value is present, keep
`oldValue` otherwise (the `mapValues` body at dstream.py lines 802-804). -/
def invApply (invFunc : V → V → V) (lv : Option V) (v : V) : V :=
  match lv with
  | some w => invFunc v w
  | none => v

/-- The per-key value emitted by the incremental reduced-window run at
output tick `i` (`none` when the key is absent, and before the first
window exists). -/
def incrVal [DecidableEq K] (func invFunc : V → V → V)
    (batches : Nat → List (K × V)) (w s i : Nat) (k : K) : Option V :=
  (incrRun func invFunc none batches w s i).bind (fun l => alookup l k)

/-- Concrete input refuting claim C1 as stated: a single batch `[(0, 1)]`
for key `0` at base tick 1 and nothing afterwards. -/
def cexBatches : Nat → List (Nat × Int) := fun t => if t = 1 then [(0, 1)] else []

/-- Concrete input for the amended claim C1 witness: batches `[(0, 1)]` at
base ticks 1, 2 and 3 (the reduce-by-key-and-window scenario of the spec,
section 8). -/
def wexBatches : Nat → List (Nat × Int) :=
  fun t => if 1 ≤ t ∧ t ≤ 3 then [(0, 1)] else []

/-!
Stream graph nodes and transform fusion

`TransformedDStream` (dstream.py lines 876-930) holds a parent stream
`prev` and a per-batch function `func : (time, rdd) -> rdd` (the unary form
accepted by `DStream.transform` is normalized to this binary form at lines
406-412).  A DStream that is not a TransformedDStream is embedded as a
`base` node identified by an id; `baseOut id t` below supplies the per-tick
output of base node `id`.  RDD contents are an opaque type `R`; batch time
is a `Nat`. -/
inductive PyDStream (R : Type) : Type where
  | base (id : Nat) (is_cached is_checkpointed : Bool)
  | transformed (prev : PyDStream R) (func : Nat → R → R)
      (is_cached is_checkpointed : Bool)

/-- The `is_cached` flag of a stream object (set by `cache`/`persist`,
dstream.py lines 301-317, initially `False`, lines 90 and 905). -/
def PyDStream.cachedFlag : PyDStream R → Bool
  | .base _ c _ => c
  | .transformed _ _ c _ => c

/-- The `is_checkpointed` flag of a stream object (set by `checkpoint`,
dstream.py lines 319-331, initially `False`, lines 91 and 906). -/
def PyDStream.checkpointedFlag : PyDStream R → Bool
  | .base _ _ k => k
  | .transformed _ _ _ k => k

/-- `TransformedDStream.__init__` (dstream.py lines 897-920): the new node
starts with both flags `False`; when the parent is itself a
`TransformedDStream` that is neither cached nor checkpointed, the new
compute function is the composition `lambda t, rdd: func(t, prev_func(t, rdd))`
and the parent pointer is rewired to the grandparent (`prev.prev`),
discarding the intermediate node; otherwise the parent is kept as the
direct parent and `func` is kept unfused. -/
def mkTransformed (prev : PyDStream R) (func : Nat → R → R) : PyDStream R :=
  match prev with
  | .transformed pprev pfunc c k =>
    if !c && !k then
      .transformed pprev (fun t rdd => func t (pfunc t rdd)) false false
    else
      .transformed (.transformed pprev pfunc c k) func false false
  | .base id c k => .transformed (.base id c k) func false false

/-- The per-tick output of a node: a base node yields `baseOut id t`, a
transformed node applies its compute function to its parent's output at
the same tick (`PythonTransformedDStream` evaluation order). -/
def PyDStream.output (baseOut : Nat → Nat → R) : PyDStream R → Nat → R
  | .base id _ _, t => baseOut id t
  | .transformed prev f _ _, t => f t (prev.output baseOut t)

/-!
Window construction validation and union
-/

/-- A stream as seen by the window/union constructors: an identity and the
slide (batch) duration of the underlying JVM stream in milliseconds
(`self._jdstream.dstream().slideDuration().milliseconds()`). -/
structure SStream where
  sid : Nat
  slideMs : Nat
deriving DecidableEq

/-- `DStream._slideDuration` (dstream.py lines 475-480): the slide duration
in seconds, `milliseconds() / 1000.0`, embedded exactly as a rational. -/
def slideDurationSec (ms : Nat) : ℚ := (ms : ℚ) / 1000

/-- The windowDuration violation message of `_validate_window_param`
(dstream.py lines 596-600), rendered without the possessive apostrophe of
the Python text. -/
def windowDurationErrMsg (d : Nat) : String :=
  "windowDuration must be multiple of the parent dstream slide (batch) duration ("
    ++ toString d ++ " ms)"

/-- The slideDuration violation message of `_validate_window_param`
(dstream.py lines 601-605), rendered without the possessive apostrophe of
the Python text. -/
def slideDurationErrMsg (d : Nat) : String :=
  "slideDuration must be multiple of the parent dstream slide (batch) duration ("
    ++ toString d ++ " ms)"

/-- `DStream._validate_window_param` (dstream.py lines 594-605): `window`
and `slide` are given in whole seconds, the parent slide `durationMs` in
milliseconds; `int(window * 1000) % duration != 0` raises, then
`if slide and int(slide * 1000) % duration != 0` raises (a `slide` of `0`
is falsy in Python and skips the second check).  Faithful for
`0 < durationMs` (a zero duration would raise ZeroDivisionError in
Python). -/
def validate_window_param (durationMs windowSec : Nat) (slideSec : Option Nat) :
    Except String Unit :=
  if (windowSec * 1000) % durationMs ≠ 0 then
    .error (windowDurationErrMsg durationMs)
  else
    match slideSec with
    | some sl =>
      if sl ≠ 0 ∧ (sl * 1000) % durationMs ≠ 0 then
        .error (slideDurationErrMsg durationMs)
      else .ok ()
    | none => .ok ()

/-- The stream a successful `window(windowDuration, slideDuration)` call
constructs (dstream.py lines 607-627): parent, window duration in
milliseconds, and slide duration in milliseconds (the parent's own slide
when `slideDuration` is omitted, which is the JVM default for the
one-argument `window` call). -/
structure WindowedStream where
  parent : SStream
  windowMs : Nat
  slideMs : Nat
deriving DecidableEq

/-- `DStream.window` (dstream.py lines 607-627): validate both durations
against the parent slide duration, then construct the windowed stream
(nothing is executed eagerly).  `DStream.reduceByKeyAndWindow` runs the
same validation at line 784. -/
def window (parent : SStream) (windowSec : Nat) (slideSec : Option Nat) :
    Except String WindowedStream :=
  match validate_window_param parent.slideMs windowSec slideSec with
  | .error m => .error m
  | .ok _ =>
    .ok ⟨parent, windowSec * 1000, (slideSec.map (· * 1000)).getD parent.slideMs⟩

/-- The two-parent node a successful `union` call constructs (a
`PythonTransformed2DStream` over `lambda a, b: a.union(b)`; nothing is
executed eagerly). -/
structure UnionNode where
  left : SStream
  right : SStream
deriving DecidableEq

/-- `DStream.union` (dstream.py lines 482-494): raise when the two slide
durations (in seconds) differ, otherwise construct the two-parent node. -/
def union (a b : SStream) : Except String UnionNode :=
  if slideDurationSec a.slideMs ≠ slideDurationSec b.slideMs then
    .error "the two DStream should have same slide duration"
  else .ok ⟨a, b⟩

/-!
The keyed state store (updateStateByKey)
-/

/-- `rdd.groupByKey` on one batch: one entry per distinct key, carrying the
values of that key in arrival order. -/
def groupByKeyL [DecidableEq K] (b : List (K × V)) : List (K × List V) :=
  ((b.map Prod.fst).dedup).map (fun k => (k, keyVals b k))

/-- `a.cogroup(b)`: one entry per key present on either side, carrying the
values of that key on each side. -/
def cogroupL [DecidableEq K] (a : List (K × S)) (b : List (K × V)) :
    List (K × (List S × List V)) :=
  ((a.map Prod.fst ++ b.map Prod.fst).dedup).map
    (fun k => (k, (keyVals a k, keyVals b k)))

/-- The `reduceFunc` closure of `DStream.updateStateByKey` (dstream.py
lines 846-853).  `a` is the previous state map (`None` before the first
tick), `b` the current batch.  Without previous state, group the batch by
key and pair each value list with no previous state; otherwise cogroup
state with batch and pair the new values with the single previous state
when one exists.  Apply `updateFunc` per key, and keep only the keys whose
result is not the absent sentinel (`state.filter(lambda k_v: k_v[1] is not
None)`; the embedding unwraps the retained values, which the Python pairs
hold unwrapped as well). -/
def usbkReduceFunc [DecidableEq K] (updateFunc : List V → Option S → Option S)
    (a : Option (List (K × S))) (b : List (K × V)) : List (K × S) :=
  let g : List (K × (List V × Option S)) :=
    match a with
    | none => (groupByKeyL b).map (fun kv => (kv.1, (kv.2, none)))
    | some al => (cogroupL al b).map (fun kv => (kv.1, (kv.2.2, kv.2.1.head?)))
  let state := g.map (fun kv => (kv.1, updateFunc kv.2.1 kv.2.2))
  state.filterMap (fun kv =>
    match kv.2 with
    | some st => some (kv.1, st)
    | none => none)

/-- A concrete state-update function for the C7 witness: keep the number
of values seen this tick (plus any previous count) while values arrive,
return the absent sentinel when none do. -/
def uEx : List Nat → Option Nat → Option Nat :=
  fun vs st => if vs.length = 0 then none else some (vs.length + st.getD 0)

/-!
groupByKeyAndWindow merge functions
-/

/-- The value-wrapping step of `DStream.groupByKeyAndWindow` (dstream.py
line 735): `self.mapValues(lambda x: [x])`. -/
def gbkwWrap (v : V) : List V := [v]

/-- The entering merge of `groupByKeyAndWindow` (dstream.py line 737):
`lambda a, b: a.extend(b) or a`, an in-place list extend returning `a`,
i.e. list append. -/
def gbkwMergeFunc (a b : List V) : List V := a ++ b

/-- The leaving merge of `groupByKeyAndWindow` (dstream.py line 738):
`lambda a, b: a[len(b):]`, dropping as many elements from the front of the
accumulated list as the leaving sublist holds. -/
def gbkwInvFunc (a b : List V) : List V := a.drop b.length

/-!
The file-saving sink
-/

/-- The substring Python searches for with
`"FileAlreadyExistsException" not in str(e)` (dstream.py line 363). -/
def alreadyExistsToken : String := "FileAlreadyExistsException"

/-- Substring containment, the embedding of the Python `in` operator on
strings: some suffix of `hay` starts with `needle`. -/
def strContains (hay needle : String) : Bool :=
  (List.range (hay.toList.length + 1)).any
    (fun i => needle.toList.isPrefixOf (hay.toList.drop i))

/-- Errors an underlying save can raise: a Py4J-wrapped Java exception
(whose text Python inspects) or any other exception. -/
inductive SinkErr : Type where
  | py4j (msg : String)
  | other (msg : String)
deriving DecidableEq

/-- The try/except of the `saveAsTextFile` closure in
`DStream.saveAsTextFiles` (dstream.py lines 356-364): a `Py4JJavaError`
whose text contains `"FileAlreadyExistsException"` is swallowed (the
foreachRDD may be called twice after recovering from checkpointing), any
other `Py4JJavaError` is re-raised, and non-Py4J errors propagate since
the handler only catches `Py4JJavaError`. -/
def swallowAlreadyExists (r : Except SinkErr Unit) : Except SinkErr Unit :=
  match r with
  | .ok _ => .ok ()
  | .error (.py4j msg) =>
    if strContains msg alreadyExistsToken then .ok () else .error (.py4j msg)
  | .error (.other m) => .error (.other m)

/-- Modelled from the spec: `rddToFileName` lives in
pyspark/streaming/util.py, which is not under src/ — "write-to-path-
derived-from-time-and-prefix/suffix" (spec section 6). -/
def rddToFileName (pfx : String) (sfx : Option String) (t : Nat) : String :=
  match sfx with
  | none => pfx ++ "-" ++ toString t
  | some s => pfx ++ "-" ++ toString t ++ "." ++ s

/-- The Java exception text raised on an existing destination, fixed to
the exception class name that the Python handler searches for. -/
def alreadyExistsMsg : String :=
  "org.apache.hadoop.mapred.FileAlreadyExistsException: Output directory already exists"

/-- Modelled from the spec: the external file-save collaborator
(`rdd.saveAsTextFile`, executed by the JVM, not under src/).  Saving to an
existing path raises the already-exists Java error and leaves the file
system unchanged; otherwise the path is created (spec sections 5 and 7:
an "already exists" condition arises from duplicate writes to the same
destination). -/
def extSave (fs : List String) (path : String) : Except SinkErr Unit × List String :=
  if path ∈ fs then (.error (.py4j alreadyExistsMsg), fs)
  else (.ok (), path :: fs)

/-- One invocation of the `saveAsTextFile` closure registered by
`DStream.saveAsTextFiles` (dstream.py lines 350-366) for one tick `t`,
over the file-system state `fs`: derive the path from prefix, suffix and
time, run the underlying save, and apply the try/except handler. -/
def saveAsTextFileTick (pfx : String) (sfx : Option String) (t : Nat)
    (fs : List String) : Except SinkErr Unit × List String :=
  let path := rddToFileName pfx sfx t
  let r := extSave fs path
  (swallowAlreadyExists r.1, r.2)

/-!
cache, persist and checkpoint
-/

/-- The Python-visible state of a generic `DStream` object: its node
identity, parent linkage, compute function and serializer (represented by
ids, since only their preservation matters here) and the two flags
(dstream.py lines 80-91). -/
structure DStreamObj : Type where
  nodeId : Nat
  parentIds : List Nat
  computeId : Nat
  serializerId : Nat
  is_cached : Bool
  is_checkpointed : Bool
deriving DecidableEq

/-- The storage levels `persist` accepts (pyspark.storagelevel; only the
choice matters, the JVM call is external). -/
inductive PyStorageLevel : Type where
  | MEMORY_ONLY
  | MEMORY_AND_DISK
  | DISK_ONLY
deriving DecidableEq

/-- `DStream.persist` (dstream.py lines 310-317): set `is_cached`, forward
the storage level to the JVM stream (external), return `self`.  The
mutation of `self` is embedded as state passing. -/
def persist (d : DStreamObj) (lvl : PyStorageLevel) : DStreamObj :=
  { d with is_cached := true }

/-- `DStream.cache` (dstream.py lines 301-308): set `is_cached`, then
`self.persist(StorageLevel.MEMORY_ONLY)`, return `self`. -/
def cache (d : DStreamObj) : DStreamObj :=
  persist { d with is_cached := true } PyStorageLevel.MEMORY_ONLY

/-- `DStream.checkpoint` (dstream.py lines 319-331): set `is_checkpointed`,
forward the interval to the JVM stream (external), return `self`. -/
def checkpoint (d : DStreamObj) (interval : Nat) : DStreamObj :=
  { d with is_checkpointed := true }

/-!
Theorems
-/

theorem alookup_eq_none [DecidableEq K] (l : List (K × V)) (k : K) :
    alookup l k = none ↔ k ∉ l.map Prod.fst := by
  induction l with
  | nil => simp [alookup]
  | cons kv rest ih =>
    by_cases h : kv.1 = k
    · simp [alookup, h]
    · have h2 : ¬ k = kv.1 := fun hk => h hk.symm
      simp [alookup, h, h2, ih]

theorem alookup_upsert [DecidableEq K] (func : V → V → V)
    (l : List (K × V)) (k0 : K) (v0 : V) (k : K) :
    alookup (upsert func l k0 v0) k =
      if k0 = k then opStep func (alookup l k0) v0 else alookup l k := by
  induction l with
  | nil =>
    by_cases h : k0 = k <;> simp [upsert, alookup, h, opStep]
  | cons kv rest ih =>
    by_cases h1 : kv.1 = k0
    · by_cases h2 : k0 = k
      · subst h2; simp [upsert, alookup, h1, opStep]
      · have h3 : ¬ kv.1 = k := fun hk => h2 ((h1.symm.trans hk))
        simp [upsert, alookup, h1, h2, h3]
    · by_cases h2 : kv.1 = k
      · subst h2
        have h3 : ¬ k0 = kv.1 := fun hk => h1 hk.symm
        simp [upsert, alookup, h1, h3]
      · simp [upsert, alookup, h1, h2, ih]

theorem alookup_foldl_upsert [DecidableEq K] (func : V → V → V)
    (l : List (K × V)) (acc : List (K × V)) (k : K) :
    alookup (l.foldl (fun acc kv => upsert func acc kv.1 kv.2) acc) k =
      (keyVals l k).foldl (opStep func) (alookup acc k) := by
  induction l generalizing acc with
  | nil => simp [keyVals]
  | cons kv rest ih =>
    rw [List.foldl_cons, ih, alookup_upsert]
    by_cases h : kv.1 = k
    · subst h
      simp [keyVals, List.filter_cons]
    · simp [keyVals, List.filter_cons, h]

theorem alookup_reduceByKey [DecidableEq K] (func : V → V → V)
    (l : List (K × V)) (k : K) :
    alookup (reduceByKey func l) k = foldV func (keyVals l k) := by
  unfold reduceByKey foldV
  rw [alookup_foldl_upsert]
  rfl

theorem mem_keys_upsert [DecidableEq K] (func : V → V → V)
    (l : List (K × V)) (k0 : K) (v0 : V) (x : K) :
    x ∈ (upsert func l k0 v0).map Prod.fst ↔ x ∈ l.map Prod.fst ∨ x = k0 := by
  induction l with
  | nil => simp [upsert]
  | cons kv rest ih =>
    by_cases h : kv.1 = k0
    · subst h; simp [upsert]; tauto
    · simp [upsert, h, ih]; tauto

theorem keysND_upsert [DecidableEq K] (func : V → V → V)
    (l : List (K × V)) (k0 : K) (v0 : V) (h : keysND l) :
    keysND (upsert func l k0 v0) := by
  induction l with
  | nil => simp [upsert, keysND]
  | cons kv rest ih =>
    by_cases hk : kv.1 = k0
    · subst hk
      simpa [upsert, keysND] using h
    · simp only [keysND, upsert, if_neg hk, List.map_cons, List.nodup_cons] at h ⊢
      refine ⟨fun hm => ?_, ih h.2⟩
      rcases (mem_keys_upsert func rest k0 v0 kv.1).1 hm with hm | hm
      · exact h.1 hm
      · exact hk hm

theorem keysND_reduceByKey [DecidableEq K] (func : V → V → V) (l : List (K × V)) :
    keysND (reduceByKey func l) := by
  have main : ∀ (l acc : List (K × V)), keysND acc →
      keysND (l.foldl (fun acc kv => upsert func acc kv.1 kv.2) acc) := by
    intro l
    induction l with
    | nil => intro acc h; exact h
    | cons kv rest ih =>
      intro acc h
      exact ih _ (keysND_upsert func acc kv.1 kv.2 h)
  exact main l [] (by simp [keysND])

theorem keyVals_eq_none_of_not_mem [DecidableEq K] (l : List (K × V)) (k : K)
    (h : k ∉ l.map Prod.fst) : keyVals l k = [] := by
  induction l with
  | nil => rfl
  | cons kv rest ih =>
    simp only [List.map_cons, List.mem_cons] at h
    push_neg at h
    have h1 : ¬ kv.1 = k := fun hk => h.1 hk.symm
    simp [keyVals, List.filter_cons, h1]
    simpa [keyVals] using ih h.2

theorem keyVals_eq_toList_alookup [DecidableEq K] (l : List (K × V)) (k : K)
    (h : keysND l) : keyVals l k = (alookup l k).toList := by
  induction l with
  | nil => rfl
  | cons kv rest ih =>
    simp only [keysND, List.map_cons, List.nodup_cons] at h
    by_cases hk : kv.1 = k
    · subst hk
      have : keyVals rest kv.1 = [] := keyVals_eq_none_of_not_mem rest kv.1 h.1
      simp [keyVals, List.filter_cons, alookup] at this ⊢
      simpa [keyVals] using this
    · simp [keyVals, List.filter_cons, hk, alookup]
      simpa [keyVals] using ih h.2

theorem keyVals_append [DecidableEq K] (l1 l2 : List (K × V)) (k : K) :
    keyVals (l1 ++ l2) k = keyVals l1 k ++ keyVals l2 k := by
  simp [keyVals, List.filter_append]

theorem opStep_eq_opComb (func : V → V → V) (a : Option V) (v : V) :
    opStep func a v = opComb func a (some v) := by
  cases a <;> rfl

theorem opComb_assoc {func : V → V → V}
    (hassoc : ∀ x y z, func (func x y) z = func x (func y z))
    (a b c : Option V) :
    opComb func (opComb func a b) c = opComb func a (opComb func b c) := by
  cases a <;> cases b <;> cases c <;> simp [opComb, hassoc]

theorem opComb_comm {func : V → V → V}
    (hcomm : ∀ x y, func x y = func y x) (a b : Option V) :
    opComb func a b = opComb func b a := by
  cases a <;> cases b <;> simp [opComb, hcomm]

theorem foldl_opStep_from {func : V → V → V}
    (hassoc : ∀ x y z, func (func x y) z = func x (func y z))
    (l : List V) (a : Option V) :
    l.foldl (opStep func) a = opComb func a (foldV func l) := by
  induction l generalizing a with
  | nil => cases a <;> rfl
  | cons v rest ih =>
    have h1 : foldV func (v :: rest) = opComb func (some v) (foldV func rest) := by
      show (v :: rest).foldl (opStep func) none = _
      rw [List.foldl_cons, ih]
      rfl
    rw [List.foldl_cons, ih, h1, opStep_eq_opComb, opComb_assoc hassoc]

theorem foldV_append {func : V → V → V}
    (hassoc : ∀ x y z, func (func x y) z = func x (func y z))
    (l1 l2 : List V) :
    foldV func (l1 ++ l2) = opComb func (foldV func l1) (foldV func l2) := by
  show (l1 ++ l2).foldl (opStep func) none = _
  rw [List.foldl_append, foldl_opStep_from hassoc]
  rfl

theorem foldV_toList (func : V → V → V) (o : Option V) :
    foldV func o.toList = o := by
  cases o <;> rfl

theorem mem_winIdx (w s i u : Nat) :
    u ∈ winIdx w s i ↔ 1 ≤ u ∧ u ≤ i * s ∧ i * s < u + w := by
  simp only [winIdx, List.mem_filter, List.mem_range, Bool.and_eq_true,
    decide_eq_true_eq]
  omega

theorem nodup_winIdx (w s i : Nat) : (winIdx w s i).Nodup :=
  (List.nodup_range _).filter _

theorem winIdx_zero (w s : Nat) : winIdx w s 0 = [] := by
  simp [winIdx, List.range_succ]

theorem foldl_opComb_from [DecidableEq K] {func : V → V → V}
    (hassoc : ∀ x y z, func (func x y) z = func x (func y z))
    (batches : Nat → List (K × V)) (k : K) (idxs : List Nat) (a : Option V) :
    idxs.foldl (fun a u => opComb func a (bVal func batches k u)) a =
      opComb func a (winVal func batches k idxs) := by
  induction idxs generalizing a with
  | nil => cases a <;> rfl
  | cons u rest ih =>
    have h1 : winVal func batches k (u :: rest) =
        opComb func (bVal func batches k u) (winVal func batches k rest) := by
      show (u :: rest).foldl _ none = _
      rw [List.foldl_cons, ih]
      cases bVal func batches k u <;> rfl
    rw [List.foldl_cons, ih, h1, opComb_assoc hassoc]

theorem winVal_append [DecidableEq K] {func : V → V → V}
    (hassoc : ∀ x y z, func (func x y) z = func x (func y z))
    (batches : Nat → List (K × V)) (k : K) (l1 l2 : List Nat) :
    winVal func batches k (l1 ++ l2) =
      opComb func (winVal func batches k l1) (winVal func batches k l2) := by
  show (l1 ++ l2).foldl _ none = _
  rw [List.foldl_append, foldl_opComb_from hassoc]
  rfl

theorem winVal_perm [DecidableEq K] {func : V → V → V}
    (hassoc : ∀ x y z, func (func x y) z = func x (func y z))
    (hcomm : ∀ x y, func x y = func y x)
    (batches : Nat → List (K × V)) (k : K) {l1 l2 : List Nat}
    (p : l1.Perm l2) :
    winVal func batches k l1 = winVal func batches k l2 := by
  haveI : RightCommutative (fun (a : Option V) (u : Nat) =>
      opComb func a (bVal func batches k u)) := by
    refine ⟨fun b a1 a2 => ?_⟩
    rw [opComb_assoc hassoc, opComb_assoc hassoc,
      opComb_comm hcomm (bVal func batches k a1) (bVal func batches k a2)]
  exact p.foldl_eq none

theorem filter_append_not_filter_perm (p : Nat → Bool) (l : List Nat) :
    (l.filter p ++ l.filter (fun u => ! p u)).Perm l := by
  induction l with
  | nil => simp
  | cons a rest ih =>
    by_cases h : p a
    · simpa [List.filter_cons, h] using ih.cons a
    · simp only [List.filter_cons, h, Bool.false_eq_true, if_neg, if_pos,
        Bool.not_false, cond_false, cond_true]
      have h2 : (rest.filter p ++ a :: rest.filter (fun u => ! p u)).Perm
          (a :: (rest.filter p ++ rest.filter (fun u => ! p u))) :=
        List.perm_middle
      exact h2.trans (ih.cons a)

theorem winIdx_succ_perm (w s i : Nat) :
    (interIdx w s i ++ enterIdx w s i).Perm (winIdx w s (i + 1)) :=
  filter_append_not_filter_perm _ _

theorem winIdx_old_perm (w s i : Nat) :
    (((winIdx w s i).filter (fun u => decide (u ∈ winIdx w s (i + 1)))) ++
      leaveIdx w s i).Perm (winIdx w s i) :=
  filter_append_not_filter_perm _ _

theorem interIdx_perm_old_inter (w s i : Nat) :
    (interIdx w s i).Perm
      ((winIdx w s i).filter (fun u => decide (u ∈ winIdx w s (i + 1)))) := by
  apply (List.perm_ext_iff_of_nodup ((nodup_winIdx w s (i + 1)).filter _)
    ((nodup_winIdx w s i).filter _)).2
  intro u
  simp only [interIdx, List.mem_filter, decide_eq_true_eq]
  tauto

theorem foldV_keyVals_flatten_reduced [DecidableEq K] {func : V → V → V}
    (hassoc : ∀ x y z, func (func x y) z = func x (func y z))
    (batches : Nat → List (K × V)) (k : K) (idxs : List Nat) :
    foldV func
        (keyVals (List.flatten (idxs.map (fun u => reduceByKey func (batches u)))) k) =
      winVal func batches k idxs := by
  induction idxs with
  | nil => rfl
  | cons u rest ih =>
    rw [List.map_cons, List.flatten_cons, keyVals_append, foldV_append hassoc,
      keyVals_eq_toList_alookup _ _ (keysND_reduceByKey func (batches u)),
      foldV_toList, alookup_reduceByKey]
    have h1 : winVal func batches k (u :: rest) =
        opComb func (bVal func batches k u) (winVal func batches k rest) := by
      show (u :: rest).foldl _ none = _
      rw [List.foldl_cons, foldl_opComb_from hassoc]
      cases bVal func batches k u <;> rfl
    rw [ih, h1]
    rfl

theorem alookup_naivePath [DecidableEq K] {func : V → V → V}
    (hassoc : ∀ x y z, func (func x y) z = func x (func y z))
    (batches : Nat → List (K × V)) (w s i : Nat) (k : K) :
    alookup (naivePath func batches w s i) k =
      winVal func batches k (winIdx w s i) := by
  rw [naivePath, alookup_reduceByKey, foldV_keyVals_flatten_reduced hassoc]

theorem alookup_invReduceFunc [DecidableEq K] (func invFunc : V → V → V)
    (a b : List (K × V)) (k : K) :
    alookup (rbkwInvReduceFunc func invFunc a b) k =
      (alookup a k).map (invApply invFunc (alookup (reduceByKey func b) k)) := by
  induction a with
  | nil => rfl
  | cons kv rest ih =>
    by_cases h : kv.1 = k
    · subst h
      rcases h2 : alookup (reduceByKey func b) kv.1 with _ | w <;>
        simp [rbkwInvReduceFunc, alookup, invApply, h2]
    · simp only [rbkwInvReduceFunc, List.map_cons, alookup, if_neg h]
      exact ih

theorem keys_invReduceFunc [DecidableEq K] (func invFunc : V → V → V)
    (a b : List (K × V)) :
    (rbkwInvReduceFunc func invFunc a b).map Prod.fst = a.map Prod.fst := by
  simp [rbkwInvReduceFunc, List.map_map]

theorem keysND_incrRun [DecidableEq K] (func invFunc : V → V → V)
    (batches : Nat → List (K × V)) (w s i : Nat) (l : List (K × V))
    (h : incrRun func invFunc none batches w s i = some l) : keysND l := by
  cases i with
  | zero => exact absurd h (by simp [incrRun])
  | succ i =>
    simp only [incrRun, Option.some.injEq] at h
    subst h
    show keysND _
    unfold keysND
    rw [keys_invReduceFunc]
    have h2 : rbkwReduceFunc func none (incrRun func invFunc none batches w s i)
        (redEnter func batches w s i) =
        reduceByKey func (match incrRun func invFunc none batches w s i with
          | some al => al ++ reduceByKey func (redEnter func batches w s i)
          | none => redEnter func batches w s i) := by
      unfold rbkwReduceFunc
      cases incrRun func invFunc none batches w s i <;> rfl
    rw [h2]
    exact keysND_reduceByKey func _

theorem alookup_reduceFuncNone [DecidableEq K] {func : V → V → V}
    (hassoc : ∀ x y z, func (func x y) z = func x (func y z))
    (a : Option (List (K × V))) (b : List (K × V)) (k : K)
    (ha : ∀ al, a = some al → keysND al) :
    alookup (rbkwReduceFunc func none a b) k =
      opComb func (a.bind (fun l => alookup l k)) (foldV func (keyVals b k)) := by
  cases a with
  | none =>
    show alookup (reduceByKey func b) k = _
    rw [alookup_reduceByKey]
    rfl
  | some al =>
    show alookup (reduceByKey func (al ++ reduceByKey func b)) k = _
    rw [alookup_reduceByKey, keyVals_append, foldV_append hassoc,
      keyVals_eq_toList_alookup _ _ (keysND_reduceByKey func b), foldV_toList,
      alookup_reduceByKey,
      keyVals_eq_toList_alookup _ _ (ha al rfl), foldV_toList]
    rfl

theorem incr_step_core {func invFunc : V → V → V} {e : V}
    (hassoc : ∀ x y z, func (func x y) z = func x (func y z))
    (hcomm : ∀ x y, func x y = func y x)
    (hinv : ∀ x y, invFunc (func x y) x = y)
    (hid : ∀ x, func e x = x)
    (hres : ∀ x, invFunc x x = e)
    (R E Lv prev : Option V)
    (hprev : prev = opComb func R Lv ∨ (opComb func R Lv = none ∧ prev = some e)) :
    ((opComb func prev E).map (invApply invFunc Lv) = opComb func R E)
    ∨ (opComb func R E = none ∧
        (opComb func prev E).map (invApply invFunc Lv) = some e) := by
  rcases hprev with hprev | ⟨hnone, hprev⟩
  · subst hprev
    cases R with
    | none =>
      cases Lv with
      | none =>
        left
        cases E <;> simp [opComb, invApply]
      | some lv =>
        cases E with
        | none =>
          right
          simp [opComb, invApply, hres]
        | some ev =>
          left
          simp [opComb, invApply, hinv]
    | some r =>
      cases Lv with
      | none =>
        left
        cases E <;> simp [opComb, invApply]
      | some lv =>
        cases E with
        | none =>
          left
          have h1 : invFunc (func r lv) lv = r := by rw [hcomm r lv, hinv]
          simp [opComb, invApply, h1]
        | some ev =>
          left
          have h1 : invFunc (func (func r lv) ev) lv = func r ev := by
            rw [hcomm r lv, hassoc lv r ev, hinv]
          simp [opComb, invApply, h1]
  · have hR : R = none := by cases R <;> cases Lv <;> simp_all [opComb]
    have hLv : Lv = none := by cases R <;> cases Lv <;> simp_all [opComb]
    subst hR; subst hLv; subst hprev
    cases E with
    | none =>
      right
      simp [opComb, invApply]
    | some ev =>
      left
      simp [opComb, invApply, hid]

theorem incr_agrees_naive_aux [DecidableEq K] {func invFunc : V → V → V} {e : V}
    (hassoc : ∀ x y z, func (func x y) z = func x (func y z))
    (hcomm : ∀ x y, func x y = func y x)
    (hinv : ∀ x y, invFunc (func x y) x = y)
    (hid : ∀ x, func e x = x)
    (hres : ∀ x, invFunc x x = e)
    (batches : Nat → List (K × V)) (w s : Nat) (i : Nat) (k : K) :
    incrVal func invFunc batches w s i k = alookup (naivePath func batches w s i) k
    ∨ (alookup (naivePath func batches w s i) k = none ∧
        incrVal func invFunc batches w s i k = some e) := by
  induction i with
  | zero =>
    left
    rw [alookup_naivePath hassoc, winIdx_zero]
    rfl
  | succ i ih =>
    have hE : foldV func (keyVals (redEnter func batches w s i) k) =
        winVal func batches k (enterIdx w s i) :=
      foldV_keyVals_flatten_reduced hassoc batches k (enterIdx w s i)
    have hLv : alookup (reduceByKey func (redLeave func batches w s i)) k =
        winVal func batches k (leaveIdx w s i) := by
      rw [alookup_reduceByKey]
      exact foldV_keyVals_flatten_reduced hassoc batches k (leaveIdx w s i)
    have hstep : incrVal func invFunc batches w s (i + 1) k =
        (opComb func (incrVal func invFunc batches w s i k)
            (winVal func batches k (enterIdx w s i))).map
          (invApply invFunc (winVal func batches k (leaveIdx w s i))) := by
      show ((incrRun func invFunc none batches w s (i + 1)).bind
        (fun l => alookup l k)) = _
      simp only [incrRun, Option.some_bind]
      rw [alookup_invReduceFunc,
        alookup_reduceFuncNone hassoc _ _ _
          (fun al hal => keysND_incrRun func invFunc batches w s i al hal), hE, hLv]
      rfl
    have hnew : alookup (naivePath func batches w s (i + 1)) k =
        opComb func (winVal func batches k (interIdx w s i))
          (winVal func batches k (enterIdx w s i)) := by
      rw [alookup_naivePath hassoc,
        ← winVal_perm hassoc hcomm batches k (winIdx_succ_perm w s i),
        winVal_append hassoc]
    have hold : alookup (naivePath func batches w s i) k =
        opComb func (winVal func batches k (interIdx w s i))
          (winVal func batches k (leaveIdx w s i)) := by
      rw [alookup_naivePath hassoc,
        ← winVal_perm hassoc hcomm batches k (winIdx_old_perm w s i),
        winVal_append hassoc,
        ← winVal_perm hassoc hcomm batches k (interIdx_perm_old_inter w s i)]
    rw [hold] at ih
    rcases incr_step_core hassoc hcomm hinv hid hres
        (winVal func batches k (interIdx w s i))
        (winVal func batches k (enterIdx w s i))
        (winVal func batches k (leaveIdx w s i))
        (incrVal func invFunc batches w s i k) ih with h | ⟨h1, h2⟩
    · left
      rw [hstep, hnew, h]
    · right
      refine ⟨by rw [hnew]; exact h1, by rw [hstep]; exact h2⟩

/-- C1 counterexample.  With `func = add` and `invFunc = sub` on the
integers — which satisfy associativity, commutativity and the inverse
contract `invFunc(func(x, y), x) = y` demanded by the claim — and window
`w = 1`, slide `s = 1` over a stream whose only data is `[(0, 1)]` at base
tick 1, the incremental path still carries key `0` (with the residue value
`0`) at output tick 2, while the naive path emits no entry for key `0`:
the two paths do not produce the same key-to-value map at every tick,
because the inverse-reduce step of the incremental path never drops a key
(dstream.py lines 799-804). -/
theorem reduceByKeyAndWindow_paths_disagree :
    (∀ x y z : Int, (x + y) + z = x + (y + z))
    ∧ (∀ x y : Int, x + y = y + x)
    ∧ (∀ x y : Int, (x + y) - x = y)
    ∧ incrVal (fun a b : Int => a + b) (fun a b : Int => a - b) cexBatches 1 1 2 0
        = some 0
    ∧ alookup (naivePath (fun a b : Int => a + b) cexBatches 1 1 2) 0 = none := by
  refine ⟨fun x y z => by ring, fun x y => by ring, fun x y => by ring, ?_, ?_⟩
  · decide
  · decide

/-- C1 (amended).  For every finite tick sequence of keyed batches, every
associative and commutative `func` with valid inverse `invFunc`
(`invFunc(func(x, y), x) = y`) that moreover has an identity element `e`
with `invFunc(x, x) = e` (true of the add/subtract pairs the operator is
documented for), and every window/slide configuration, the incremental
`reduceByKeyAndWindow` path with no `filterFunc` produces at every output
tick the same value as the naive (no-invFunc) path on every key the naive
map contains, and any key it carries beyond the naive map has the residue
value `e` (a key whose whole contribution has left the window; this is the
pruning that `filterFunc` exists for, per the spec, section 4.2 step 3). -/
theorem reduceByKeyAndWindow_incremental_agrees_naive [DecidableEq K]
    (func invFunc : V → V → V) (e : V) (batches : Nat → List (K × V)) (w s : Nat)
    (hassoc : ∀ x y z, func (func x y) z = func x (func y z))
    (hcomm : ∀ x y, func x y = func y x)
    (hinv : ∀ x y, invFunc (func x y) x = y)
    (hid : ∀ x, func e x = x)
    (hres : ∀ x, invFunc x x = e)
    (i : Nat) (k : K) :
    incrVal func invFunc batches w s i k = alookup (naivePath func batches w s i) k
    ∨ (alookup (naivePath func batches w s i) k = none ∧
        incrVal func invFunc batches w s i k = some e) :=
  incr_agrees_naive_aux hassoc hcomm hinv hid hres batches w s i k

/-- C1 witness: the amended theorem applied to add/subtract over the
integers, window 2, slide 1, at output tick 3 and key 0. -/
theorem reduceByKeyAndWindow_incremental_agrees_naive_witness :
    incrVal (fun a b : Int => a + b) (fun a b : Int => a - b) wexBatches 2 1 3 0
        = alookup (naivePath (fun a b : Int => a + b) wexBatches 2 1 3) 0
    ∨ (alookup (naivePath (fun a b : Int => a + b) wexBatches 2 1 3) 0 = none ∧
        incrVal (fun a b : Int => a + b) (fun a b : Int => a - b) wexBatches 2 1 3 0
          = some 0) :=
  reduceByKeyAndWindow_incremental_agrees_naive
    (fun a b : Int => a + b) (fun a b : Int => a - b) 0 wexBatches 2 1
    (fun x y z => by ring) (fun x y => by ring) (fun x y => by ring)
    (fun x => by ring) (fun x => by ring) 3 0

/-- C2.  The per-tick inverse step of the incremental path (`invReduceFunc`,
dstream.py lines 799-804): the leaving batches are reduced by key with
`func`; for a key present in the candidate map and in the reduced leaving
map, the value becomes `invFunc(oldValue, leavingValue)`; a key with no
leaving contribution keeps `oldValue`; and the step drops no key (the
output's key sequence is exactly the candidate's). -/
theorem rbkwInvReduceFunc_characterization [DecidableEq K]
    (func invFunc : V → V → V) (a b : List (K × V)) (k : K) (v : V) :
    (alookup a k = some v →
      ∀ w, alookup (reduceByKey func b) k = some w →
        alookup (rbkwInvReduceFunc func invFunc a b) k = some (invFunc v w))
    ∧ (alookup a k = some v → alookup (reduceByKey func b) k = none →
        alookup (rbkwInvReduceFunc func invFunc a b) k = some v)
    ∧ (rbkwInvReduceFunc func invFunc a b).map Prod.fst = a.map Prod.fst := by
  refine ⟨?_, ?_, keys_invReduceFunc func invFunc a b⟩
  · intro h w hw
    rw [alookup_invReduceFunc, h, hw]
    simp [invApply]
  · intro h hw
    rw [alookup_invReduceFunc, h, hw]
    simp [invApply]

/-- C2 witness: with add/subtract on the integers, candidate map
`[(0, 5), (1, 7)]` and leaving batches `[(0, 2), (0, 1)]`, key `0` (leaving
contribution `3`) becomes `5 - 3` and key `1` (no leaving contribution)
keeps `7`. -/
theorem rbkwInvReduceFunc_characterization_witness :
    alookup (rbkwInvReduceFunc (fun a b : Int => a + b) (fun a b : Int => a - b)
        [(0, 5), (1, 7)] [(0, 2), (0, 1)]) 0 = some ((5 : Int) - 3)
    ∧ alookup (rbkwInvReduceFunc (fun a b : Int => a + b) (fun a b : Int => a - b)
        [(0, 5), (1, 7)] [(0, 2), (0, 1)]) 1 = some 7 :=
  ⟨(rbkwInvReduceFunc_characterization (fun a b : Int => a + b)
      (fun a b : Int => a - b) [(0, 5), (1, 7)] [(0, 2), (0, 1)] 0 5).1
    (by decide) 3 (by decide),
   (rbkwInvReduceFunc_characterization (fun a b : Int => a + b)
      (fun a b : Int => a - b) [(0, 5), (1, 7)] [(0, 2), (0, 1)] 1 7).2.1
    (by decide) (by decide)⟩

theorem output_mkTransformed (baseOut : Nat → Nat → R)
    (prev : PyDStream R) (func : Nat → R → R) (t : Nat) :
    (mkTransformed prev func).output baseOut t = func t (prev.output baseOut t) := by
  cases prev with
  | base id c k => rfl
  | transformed pprev pfunc c k =>
    by_cases hc : c <;> by_cases hk : k <;>
      simp [mkTransformed, hc, hk, PyDStream.output]

theorem chain_output_eq (baseOut : Nat → Nat → R)
    (b : PyDStream R) (fs : List (Nat → R → R)) (t : Nat) :
    (fs.foldl (fun nd f => mkTransformed nd f) b).output baseOut t =
      fs.foldl (fun r f => f t r) (b.output baseOut t) := by
  induction fs generalizing b with
  | nil => rfl
  | cons f rest ih =>
    rw [List.foldl_cons, List.foldl_cons, ih, output_mkTransformed]

/-- C3.  Fusion is transparent: for any chain of `N` successive
single-parent stateless transform constructions over a base stream (each
constructed node carries `is_cached = is_checkpointed = False`, so the
chain stays fusable), the node built with the fusion rule produces, at
every tick and for every assignment of parent batches, the output of
applying the `N` transform functions in order; and the fusion rule itself
sets the fused node's compute function to the composition
`lambda t, rdd: f(t, parentFn(t, rdd))` and its parent pointer to the
grandparent (dstream.py lines 911-917). -/
theorem transform_fusion_transparent {R : Type} (baseOut : Nat → Nat → R)
    (b : PyDStream R) (fs : List (Nat → R → R)) (t : Nat) :
    ((fs.foldl (fun nd f => mkTransformed nd f) b).output baseOut t =
      fs.foldl (fun r f => f t r) (b.output baseOut t))
    ∧ ∀ (pprev : PyDStream R) (pfunc f : Nat → R → R),
        mkTransformed (.transformed pprev pfunc false false) f =
          .transformed pprev (fun t rdd => f t (pfunc t rdd)) false false :=
  ⟨chain_output_eq baseOut b fs t, fun _ _ _ => rfl⟩

/-- C4.  Fusion never folds across a cached or checkpointed node: when the
parent of a newly constructed transform node has `is_cached` or
`is_checkpointed` set, the new node keeps that parent as its direct parent
and keeps its own function unfused (dstream.py lines 911 and 918-920). -/
theorem no_fusion_across_cached_or_checkpointed {R : Type}
    (prev : PyDStream R) (func : Nat → R → R)
    (h : prev.cachedFlag = true ∨ prev.checkpointedFlag = true) :
    mkTransformed prev func = .transformed prev func false false := by
  cases prev with
  | base id c k => rfl
  | transformed pprev pfunc c k =>
    rcases h with h | h
    · simp only [PyDStream.cachedFlag] at h
      simp [mkTransformed, h]
    · simp only [PyDStream.checkpointedFlag] at h
      simp [mkTransformed, h]

/-- C4 witness: a cached transformed parent (over `R = Nat`) is kept as the
direct parent with the child's function unfused. -/
theorem no_fusion_across_cached_or_checkpointed_witness :
    mkTransformed (.transformed (.base 0 false false) (fun _ r => r + 1) true false)
        (fun _ r => r * 2) =
      .transformed (.transformed (.base 0 false false) (fun _ r => r + 1) true false)
        (fun _ r => r * 2) false false :=
  no_fusion_across_cached_or_checkpointed
    (.transformed (.base 0 false false) (fun _ r => r + 1) true false)
    (fun _ r => r * 2) (Or.inl rfl)

/-- C5.  For every parent slide duration `d` (milliseconds, positive),
window duration `w` and optional slide duration `s` (both in seconds),
constructing a window succeeds iff `w * 1000` is an exact multiple of `d`
and `s` is either omitted or `s * 1000` is an exact multiple of `d`; and
any violation is a construction-time error carrying one of the two
messages that name the expected divisor `d` (the parent slide duration).
`reduceByKeyAndWindow` runs the same `_validate_window_param` check. -/
theorem window_validation_iff (sid d w : Nat) (s : Option Nat) (hd : 0 < d) :
    ((∃ ws, window ⟨sid, d⟩ w s = Except.ok ws) ↔
      ((w * 1000) % d = 0 ∧
        (s = none ∨ ∃ sv, s = some sv ∧ (sv * 1000) % d = 0)))
    ∧ (validate_window_param d w s = Except.ok ()
       ∨ validate_window_param d w s = Except.error (windowDurationErrMsg d)
       ∨ validate_window_param d w s = Except.error (slideDurationErrMsg d)) := by
  constructor
  · unfold window validate_window_param
    by_cases h1 : (w * 1000) % d = 0
    · cases s with
      | none => simp [h1]
      | some sl =>
        by_cases h2 : sl = 0
        · subst h2
          simp [h1]
        · by_cases h3 : (sl * 1000) % d = 0 <;> simp [h1, h2, h3]
    · simp [h1]
  · unfold validate_window_param
    by_cases h1 : (w * 1000) % d = 0
    · cases s with
      | none => simp [h1]
      | some sl =>
        by_cases h2 : sl ≠ 0 ∧ (sl * 1000) % d ≠ 0 <;> simp [h1, h2]
    · simp [h1]

/-- C5 witness: parent slide 1000 ms, window 3 s, slide 2 s is accepted. -/
theorem window_validation_iff_witness :
    ∃ ws, window ⟨0, 1000⟩ 3 (some 2) = Except.ok ws :=
  (window_validation_iff 0 1000 3 (some 2) (by decide)).1.mpr
    ⟨by decide, Or.inr ⟨2, rfl, by decide⟩⟩

/-- C6.  `union(A, B)` constructs its two-parent node (executing nothing
eagerly) exactly when the two streams have equal slide duration, and
raises the construction-time configuration error otherwise (dstream.py
lines 482-494; the seconds-valued durations compared by the code are equal
iff the underlying millisecond durations are). -/
theorem union_slide_duration_check (a b : SStream) :
    (union a b = Except.ok ⟨a, b⟩ ↔ a.slideMs = b.slideMs)
    ∧ (a.slideMs ≠ b.slideMs →
        union a b = Except.error "the two DStream should have same slide duration") := by
  have key : slideDurationSec a.slideMs = slideDurationSec b.slideMs ↔
      a.slideMs = b.slideMs := by
    unfold slideDurationSec
    constructor
    · intro h
      field_simp at h
      exact_mod_cast h
    · intro h
      rw [h]
  constructor
  · constructor
    · intro hok
      by_contra hne
      have hq : slideDurationSec a.slideMs ≠ slideDurationSec b.slideMs :=
        fun hh => hne (key.mp hh)
      unfold union at hok
      rw [if_pos hq] at hok
      exact absurd hok (by simp)
    · intro heq
      unfold union
      rw [if_neg (fun hh => hh (key.mpr heq))]
  · intro hne
    unfold union
    rw [if_pos (fun hh => hne (key.mp hh))]

/-- C6 witness: streams with slide durations 1000 ms and 2000 ms make
`union` raise the configuration error. -/
theorem union_slide_duration_check_witness :
    union ⟨0, 1000⟩ ⟨1, 2000⟩ =
      Except.error "the two DStream should have same slide duration" :=
  (union_slide_duration_check ⟨0, 1000⟩ ⟨1, 2000⟩).2 (by decide)

theorem alookup_map_from_keys [DecidableEq K] (keys : List K) (f : K → V) (k : K) :
    alookup (keys.map (fun k => (k, f k))) k =
      if k ∈ keys then some (f k) else none := by
  induction keys with
  | nil => simp [alookup]
  | cons k1 rest ih =>
    by_cases h : k1 = k
    · subst h
      simp [alookup]
    · have h2 : ¬ k = k1 := fun hk => h hk.symm
      simp [alookup, h, h2, ih]

theorem alookup_filterMap_unwrap_of_not_mem [DecidableEq K]
    (l : List (K × Option S)) (k : K) (h : k ∉ l.map Prod.fst) :
    alookup (l.filterMap (fun kv =>
      match kv.2 with
      | some st => some (kv.1, st)
      | none => none)) k = none := by
  induction l with
  | nil => rfl
  | cons kv rest ih =>
    simp only [List.map_cons, List.mem_cons] at h
    push_neg at h
    have h1 : ¬ kv.1 = k := fun hk => h.1 hk.symm
    rcases h2 : kv.2 with _ | st
    · simpa [List.filterMap_cons, h2] using ih h.2
    · simpa [List.filterMap_cons, h2, alookup, h1] using ih h.2

theorem alookup_filterMap_unwrap [DecidableEq K]
    (l : List (K × Option S)) (k : K) (hnd : (l.map Prod.fst).Nodup) :
    alookup (l.filterMap (fun kv =>
      match kv.2 with
      | some st => some (kv.1, st)
      | none => none)) k = (alookup l k).bind id := by
  induction l with
  | nil => rfl
  | cons kv rest ih =>
    simp only [List.map_cons, List.nodup_cons] at hnd
    by_cases h : kv.1 = k
    · subst h
      rcases h2 : kv.2 with _ | st
      · rw [List.filterMap_cons]
        simp only [h2]
        rw [alookup_filterMap_unwrap_of_not_mem rest kv.1 hnd.1]
        simp [alookup, h2]
      · simp [List.filterMap_cons, h2, alookup]
    · rcases h2 : kv.2 with _ | st
      · simpa [List.filterMap_cons, h2, alookup, h] using ih hnd.2
      · simpa [List.filterMap_cons, h2, alookup, h] using ih hnd.2

theorem alookup_usbk_some [DecidableEq K]
    (updateFunc : List V → Option S → Option S)
    (a : List (K × S)) (b : List (K × V)) (k : K) :
    alookup (usbkReduceFunc updateFunc (some a) b) k =
      if k ∈ a.map Prod.fst ∨ k ∈ b.map Prod.fst then
        updateFunc (keyVals b k) ((keyVals a k).head?)
      else none := by
  unfold usbkReduceFunc cogroupL
  dsimp only
  rw [List.map_map, List.map_map]
  have hcomp :
      (((fun kv : K × (List V × Option S) => (kv.1, updateFunc kv.2.1 kv.2.2)) ∘
        (fun kv : K × (List S × List V) => (kv.1, (kv.2.2, kv.2.1.head?)))) ∘
        (fun k => (k, (keyVals a k, keyVals b k)))) =
      fun k => (k, updateFunc (keyVals b k) ((keyVals a k).head?)) := rfl
  rw [hcomp, alookup_filterMap_unwrap _ _ (by
    rw [List.map_map]
    have : (Prod.fst ∘ fun k : K =>
        (k, updateFunc (keyVals b k) ((keyVals a k).head?))) = id := rfl
    rw [this, List.map_id]
    exact (a.map Prod.fst ++ b.map Prod.fst).nodup_dedup),
    alookup_map_from_keys]
  by_cases h : k ∈ a.map Prod.fst ∨ k ∈ b.map Prod.fst
  · rw [if_pos (by simpa [List.mem_dedup, List.mem_append] using h), if_pos h]
    rfl
  · rw [if_neg (by simpa [List.mem_dedup, List.mem_append] using h), if_neg h]
    rfl

/-- C7.  `updateStateByKey` tombstoning (dstream.py lines 846-853): every
key of the emitted state map carries a non-`None` `updateFunc` result; if
`updateFunc` returns the absent sentinel for key `k` at a tick, `k` is
absent from the map emitted at that tick; and a key absent from the
emitted map stays absent at the next tick whenever the next batch carries
no values for it (`updateFunc` is only invoked for keys present in the
cogroup of state and batch, so it cannot reintroduce a key otherwise). -/
theorem updateStateByKey_tombstoning [DecidableEq K]
    (updateFunc : List V → Option S → Option S)
    (a : List (K × S)) (b b2 : List (K × V)) (k : K) :
    (∀ st, alookup (usbkReduceFunc updateFunc (some a) b) k = some st →
      updateFunc (keyVals b k) ((keyVals a k).head?) = some st)
    ∧ (updateFunc (keyVals b k) ((keyVals a k).head?) = none →
        alookup (usbkReduceFunc updateFunc (some a) b) k = none)
    ∧ (alookup (usbkReduceFunc updateFunc (some a) b) k = none →
        k ∉ b2.map Prod.fst →
        alookup (usbkReduceFunc updateFunc
          (some (usbkReduceFunc updateFunc (some a) b)) b2) k = none) := by
  refine ⟨?_, ?_, ?_⟩
  · intro st h
    rw [alookup_usbk_some] at h
    by_cases hm : k ∈ a.map Prod.fst ∨ k ∈ b.map Prod.fst
    · rw [if_pos hm] at h
      exact h
    · rw [if_neg hm] at h
      exact absurd h (by simp)
  · intro h
    rw [alookup_usbk_some]
    by_cases hm : k ∈ a.map Prod.fst ∨ k ∈ b.map Prod.fst
    · rw [if_pos hm]
      exact h
    · rw [if_neg hm]
  · intro h hb2
    have hk1 : k ∉ (usbkReduceFunc updateFunc (some a) b).map Prod.fst :=
      (alookup_eq_none _ _).1 h
    rw [alookup_usbk_some, if_neg ?_]
    rintro (hk | hk)
    · exact hk1 hk
    · exact hb2 hk

/-- C7 witness: with state `[(0, 5)]` and an empty batch, `uEx` returns the
sentinel for key 0, so key 0 is absent at this tick, and remains absent at
the next tick whose batch `[(1, 9)]` carries no values for it. -/
theorem updateStateByKey_tombstoning_witness :
    alookup (usbkReduceFunc uEx (some [(0, 5)]) ([] : List (Nat × Nat))) 0 = none
    ∧ alookup (usbkReduceFunc uEx
        (some (usbkReduceFunc uEx (some [(0, 5)]) ([] : List (Nat × Nat))))
        [(1, 9)]) 0 = none :=
  ⟨(updateStateByKey_tombstoning uEx [(0, 5)] [] [(1, 9)] 0).2.1 (by decide),
   (updateStateByKey_tombstoning uEx [(0, 5)] [] [(1, 9)] 0).2.2
     ((updateStateByKey_tombstoning uEx [(0, 5)] [] [(1, 9)] 0).2.1 (by decide))
     (by decide)⟩

theorem foldl_mergeFunc_wrap (vs : List V) (acc : List V) :
    (vs.map gbkwWrap).foldl (opStep gbkwMergeFunc) (some acc) = some (acc ++ vs) := by
  induction vs generalizing acc with
  | nil => simp
  | cons v rest ih =>
    simp only [List.map_cons, List.foldl_cons, opStep, gbkwMergeFunc, gbkwWrap, ih]
    simp

theorem foldV_mergeFunc_wrap (vs : List V) :
    foldV gbkwMergeFunc (vs.map gbkwWrap) =
      match vs with
      | [] => none
      | _ :: _ => some vs := by
  cases vs with
  | nil => rfl
  | cons v rest =>
    show (List.map gbkwWrap (v :: rest)).foldl (opStep gbkwMergeFunc) none = some (v :: rest)
    simp only [List.map_cons, List.foldl_cons, opStep]
    have : gbkwWrap v = [v] := rfl
    rw [this, foldl_mergeFunc_wrap]
    rfl

theorem keyVals_const_key [DecidableEq K] (k : K) (vs : List V) (f : V → W) :
    keyVals (vs.map (fun v => (k, f v))) k = vs.map f := by
  induction vs with
  | nil => rfl
  | cons v rest ih => simp [keyVals, List.filter_cons] at ih ⊢; exact ih

/-- C8.  `groupByKeyAndWindow` maintains per-key lists incrementally with
FIFO discipline (dstream.py lines 735-742): each value is wrapped into a
singleton list; reducing a key's wrapped values with the entering merge
accumulates them in arrival order; the entering merge is list append; the
leaving merge drops exactly the leaving sublist's length from the front of
the accumulated list — so it satisfies the inverse contract
`invFunc(func(x, y), x) = y`, and when the accumulated list starts with
the leaving values (FIFO order) it leaves the values of the ticks still in
the window, in arrival order. -/
theorem groupByKeyAndWindow_fifo [DecidableEq K] (k : K) (v : V)
    (a entering leaving mid : List V) (vs : List V) :
    gbkwWrap v = [v]
    ∧ gbkwMergeFunc a entering = a ++ entering
    ∧ gbkwInvFunc (gbkwMergeFunc a entering) a = entering
    ∧ gbkwInvFunc (gbkwMergeFunc (leaving ++ mid) entering) leaving = mid ++ entering
    ∧ alookup (reduceByKey gbkwMergeFunc (vs.map (fun v => (k, gbkwWrap v)))) k =
        (match vs with
          | [] => none
          | _ :: _ => some vs) := by
  refine ⟨rfl, rfl, ?_, ?_, ?_⟩
  · show (a ++ entering).drop a.length = entering
    exact List.drop_left a entering
  · show ((leaving ++ mid) ++ entering).drop leaving.length = mid ++ entering
    rw [List.append_assoc]
    exact List.drop_left leaving (mid ++ entering)
  · rw [alookup_reduceByKey, keyVals_const_key, foldV_mergeFunc_wrap]

/-- C9.  The sink is idempotent: a single invocation never raises (in
particular not when the destination path already exists, where the
underlying save raises the already-exists Java error and the handler
swallows it), so invoking the same sink twice for the same `(time,
Dataset)` does not raise; and every other error of the underlying save
propagates — a Py4J error without the token is re-raised unchanged, and a
non-Py4J error is not caught at all. -/
theorem saveAsTextFiles_idempotent (pfx : String) (sfx : Option String)
    (t : Nat) (fs : List String) :
    ((saveAsTextFileTick pfx sfx t fs).1 = Except.ok ()
      ∧ (saveAsTextFileTick pfx sfx t ((saveAsTextFileTick pfx sfx t fs).2)).1 =
          Except.ok ())
    ∧ (∀ msg, strContains msg alreadyExistsToken = false →
        swallowAlreadyExists (Except.error (SinkErr.py4j msg)) =
          Except.error (SinkErr.py4j msg))
    ∧ (∀ m, swallowAlreadyExists (Except.error (SinkErr.other m)) =
        Except.error (SinkErr.other m)) := by
  have hmsg : strContains alreadyExistsMsg alreadyExistsToken = true := by decide
  refine ⟨?_, ?_, fun m => rfl⟩
  · by_cases hp : rddToFileName pfx sfx t ∈ fs
    · constructor
      · simp [saveAsTextFileTick, extSave, hp, swallowAlreadyExists, hmsg]
      · simp [saveAsTextFileTick, extSave, hp, swallowAlreadyExists, hmsg]
    · constructor
      · simp [saveAsTextFileTick, extSave, hp, swallowAlreadyExists]
      · simp [saveAsTextFileTick, extSave, hp, swallowAlreadyExists, hmsg]
  · intro msg h
    simp [swallowAlreadyExists, h]

/-- C9 witness: saving twice to prefix "out" at tick 5 with the path
already present raises nothing, and a Py4J error without the token
propagates unchanged. -/
theorem saveAsTextFiles_idempotent_witness :
    ((saveAsTextFileTick "out" none 5 ["out-5"]).1 = Except.ok ()
      ∧ (saveAsTextFileTick "out" none 5
          ((saveAsTextFileTick "out" none 5 ["out-5"]).2)).1 = Except.ok ())
    ∧ swallowAlreadyExists (Except.error (SinkErr.py4j "boom")) =
        Except.error (SinkErr.py4j "boom") :=
  ⟨(saveAsTextFiles_idempotent "out" none 5 ["out-5"]).1,
   (saveAsTextFiles_idempotent "out" none 5 ["out-5"]).2.1 "boom" (by decide)⟩

/-- C10.  `cache`, `persist` and `checkpoint` return the stream they were
called on (the same node: identity, parents, compute function and
serializer unchanged — they construct no new node) and only set their
flag: `cache`/`persist` set `is_cached` to `True` leaving
`is_checkpointed` untouched, `checkpoint` sets `is_checkpointed` to `True`
leaving `is_cached` untouched. -/
theorem cache_persist_checkpoint_frame (d : DStreamObj) (lvl : PyStorageLevel)
    (i : Nat) :
    cache d = { d with is_cached := true }
    ∧ persist d lvl = { d with is_cached := true }
    ∧ checkpoint d i = { d with is_checkpointed := true }
    ∧ (cache d).nodeId = d.nodeId
    ∧ (cache d).parentIds = d.parentIds
    ∧ (cache d).computeId = d.computeId
    ∧ (cache d).serializerId = d.serializerId
    ∧ (cache d).is_checkpointed = d.is_checkpointed
    ∧ (persist d lvl).nodeId = d.nodeId
    ∧ (persist d lvl).is_checkpointed = d.is_checkpointed
    ∧ (checkpoint d i).nodeId = d.nodeId
    ∧ (checkpoint d i).parentIds = d.parentIds
    ∧ (checkpoint d i).computeId = d.computeId
    ∧ (checkpoint d i).serializerId = d.serializerId
    ∧ (checkpoint d i).is_cached = d.is_cached :=
  ⟨rfl, rfl, rfl, rfl, rfl, rfl, rfl, rfl, rfl, rfl, rfl, rfl, rfl, rfl, rfl⟩

end Spark
